import Mathlib

/-!
Shallow embedding of the RPFH remote-page-fault-handler device model from
`hw/riscv/rpfh.c` (final revision; the one whose register layout has the
FREEPAGE/EVICTPAGE/NEWFRAME offsets 0/8/16 and the three QTAILQ queues).

Guest physical memory is modelled as a byte function `Nat → Nat` indexed by
the host offset into guest DRAM; the C code's `gpaddr_to_hostaddr` adds the
host base pointer `r->hostptr_guest_dram`, which we model as offset 0, so the
function returns the offset `gpaddr & 0x7FFFFFFF` itself.  64-bit PTE words
are read and written little-endian through `load64`/`store64`, matching the
`uint64_t *` accesses and the DEVICE_LITTLE_ENDIAN declaration.  The three
QTAILQ queues (`headff`, `headef`, `headnf`) are lists with insertion at the
tail and removal at the head, exactly as `QTAILQ_INSERT_TAIL` /
`QTAILQ_FIRST` + `QTAILQ_REMOVE` are used in the source.  The two fatal
`assert`s in `rpfh_fetch_page` are modelled by returning `none`.
-/

namespace RPFH

/-- Page shift: frames are 4096 bytes.  The earlier revision of the same file
(`src/unnamed/part_000`) writes the constant inline as `(*pte >> 10) << 12`. -/
def PGSHIFT : Nat := 12

/-- Shift of the PPN field inside a PTE word, from the RISC-V PTE layout used
by the source (`(*pte >> 10) << 12` in the earlier revision of the file). -/
def PTE_PPN_SHIFT : Nat := 10

/-- Modelled from the spec: `PTE_REMOTE` is defined in `target-riscv/cpu.h`,
which is not part of the sources given.  The spec constrains it to be a single
"remote" flag bit that (a) is masked off by `frame_of`/`pte_frame` before the
PPN shift, so it lies at or above bit `PTE_PPN_SHIFT`; (b) is not among the
low-order status/permission bits (bits 0..7) that `rpfh_fetch_page` preserves
with `& 0xFF`; and (c) is visible to the match key's mask `0xFFFFFFFFFC00`
(bits 10..47), since the spec says matching is sensitive to the remote
marker.  We take the top bit of that key mask, bit 47. -/
def PTE_REMOTE : Nat := 2 ^ 47

/-- The comparison key of a PTE (spec: `match_key`).  The source inlines it
at `rpfh.c:231`/`234`: `key_pte = *pte & 0xFFFFFFFFFC00`. -/
def match_key (pte : Nat) : Nat := pte &&& 0xFFFFFFFFFC00

/-- `pte_frame` (`rpfh.c:206`): physical address of the page frame pointed to
by the PTE, with the remote flag masked off before the shift.  `~PTE_REMOTE`
is the 64-bit complement; the `% 2^64` models the `uintptr_t` width. -/
def pte_frame (pte : Nat) : Nat :=
  (((pte &&& (2 ^ 64 - 1 - PTE_REMOTE)) >>> PTE_PPN_SHIFT) <<< 12) % 2 ^ 64

/-- `gpaddr_to_hostaddr` (`rpfh.c:211`): guest physical address to offset
into guest DRAM (the host base pointer is modelled as 0). -/
def gpaddr_to_hostaddr (gpaddr : Nat) : Nat := gpaddr &&& 0x7FFFFFFF

/-- Little-endian 64-bit load from the byte memory. -/
def load64 (m : Nat → Nat) (a : Nat) : Nat :=
  m a % 256 + 256 * (m (a + 1) % 256 + 256 * (m (a + 2) % 256 +
    256 * (m (a + 3) % 256 + 256 * (m (a + 4) % 256 + 256 * (m (a + 5) % 256 +
      256 * (m (a + 6) % 256 + 256 * (m (a + 7) % 256)))))))

/-- Little-endian 64-bit store to the byte memory. -/
def store64 (m : Nat → Nat) (a v : Nat) : Nat → Nat :=
  fun x => if a ≤ x ∧ x < a + 8 then v / 256 ^ (x - a) % 256 else m x

/-- `memset(dst, 0, n)` on the byte memory. -/
def memset0 (m : Nat → Nat) (a n : Nat) : Nat → Nat :=
  fun x => if a ≤ x ∧ x < a + n then 0 else m x

/-- `memcpy(dst, data, n)` where `data` is a saved page image (byte `i` of the
image is `data i`). -/
def memcpyData (m : Nat → Nat) (dst : Nat) (data : Nat → Nat) (n : Nat) :
    Nat → Nat :=
  fun x => if dst ≤ x ∧ x < dst + n then data (x - dst) else m x

/-- `struct evictedframe` (`rpfh.c:190`): saved page image plus the PTE value
captured at eviction. -/
structure evictedframe where
  data : Nat → Nat
  pte : Nat

/-- The controller state: guest DRAM bytes plus the three QTAILQ queues
`headff` (free frames), `headef` (evicted frames), `headnf` (new-frame
notifications), each FIFO (insert at tail, remove at head). -/
structure RState where
  mem : Nat → Nat
  headff : List Nat
  headef : List evictedframe
  headnf : List Nat

/-- State after `rpfh_init_mmio` (`rpfh.c:383-385`): all three queues empty,
guest DRAM holding some initial contents. -/
def initState (m : Nat → Nat) : RState :=
  { mem := m, headff := [], headef := [], headnf := [] }

/-- `rpfh_evict_page` (`rpfh.c:268-295`).  Reads the PTE; if the remote flag
is already set, logs and returns.  Otherwise computes the frame address, sets
the remote flag in the guest PTE, copies the 4096-byte frame image into a new
buffer, zeroes the frame, and appends the `(image, *pte)` entry to `headef`
(`ef->pte = *pte` is re-read from memory after the `memset`, as in the
source). -/
def rpfh_evict_page (pte_gpaddr : Nat) (s : RState) : RState :=
  let pa := gpaddr_to_hostaddr pte_gpaddr
  let pte0 := load64 s.mem pa
  if pte0 &&& PTE_REMOTE ≠ 0 then s
  else
    let frame_gpaddr := pte_frame pte0
    let mem1 := store64 s.mem pa (pte0 ||| PTE_REMOTE)
    let fa := gpaddr_to_hostaddr frame_gpaddr
    let mem2 := memset0 mem1 fa 4096
    { s with
      mem := mem2
      headef := s.headef ++ [{ data := fun i => mem1 (fa + i)
                               pte := load64 mem2 pa }] }

/-- `rpfh_freepage` (`rpfh.c:298-307`): reads the PTE at the given guest
address and appends the frame address it encodes to the free-frame pool. -/
def rpfh_freepage (pte_gpaddr : Nat) (s : RState) : RState :=
  let pa := gpaddr_to_hostaddr pte_gpaddr
  { s with headff := s.headff ++ [pte_frame (load64 s.mem pa)] }

/-- The `QTAILQ_FOREACH` scan of `rpfh_fetch_page` (`rpfh.c:233-240`): find
and remove the first evicted frame whose masked PTE equals the key. -/
def takeMatching (key : Nat) : List evictedframe →
    Option (evictedframe × List evictedframe)
  | [] => none
  | e :: rest =>
    if key = match_key e.pte then some (e, rest)
    else (takeMatching key rest).map (fun p => (p.1, e :: p.2))

/-- `rpfh_fetch_page` (`rpfh.c:216-264`).  Pops the oldest free frame (fatal,
i.e. `none`, if the pool is empty), removes the first evicted frame whose key
matches the faulting PTE's key (fatal if none matches), copies the saved image
into the popped frame, composes the new PTE from the frame's PPN and the low
8 bits of the evicted PTE, appends it to the notification queue, and returns
`(paddr_res, new_pte, new state)`. -/
def rpfh_fetch_page (pte : Nat) (s : RState) : Option (Nat × Nat × RState) :=
  match s.headff with
  | [] => none
  | ffg :: ffrest =>
    match takeMatching (match_key pte) s.headef with
    | none => none
    | some (ef, efrest) =>
      let fa := gpaddr_to_hostaddr ffg
      let mem1 := memcpyData s.mem fa ef.data 4096
      let paddr_res := ffg
      let new_pte := ((paddr_res >>> PGSHIFT) <<< PTE_PPN_SHIFT) % 2 ^ 64 |||
        (ef.pte &&& 0xFF)
      some (paddr_res, new_pte,
        { s with
          mem := mem1
          headff := ffrest
          headef := efrest
          headnf := s.headnf ++ [new_pte] })

/-- `rpfh_queues_write` (`rpfh.c:309-327`): a zero value is a logged no-op;
offset 0 triggers `rpfh_freepage`, offset 8 triggers `rpfh_evict_page`, any
other offset is logged and ignored. -/
def rpfh_queues_write (mmioaddr value : Nat) (s : RState) : RState :=
  if value = 0 then s
  else if mmioaddr = 0 then rpfh_freepage value s
  else if mmioaddr = 8 then rpfh_evict_page value s
  else s

/-- `rpfh_queues_read` (`rpfh.c:329-360`): offset 0 returns the free-frame
count, offset 8 always returns 0, offset 16 pops the notification queue (0 if
empty), any other offset is logged and returns the initial `count = 0`.
Returns the read value together with the (possibly updated) state. -/
def rpfh_queues_read (addr : Nat) (s : RState) : Nat × RState :=
  if addr = 0 then (s.headff.length, s)
  else if addr = 8 then (0, s)
  else if addr = 16 then
    match s.headnf with
    | [] => (0, s)
    | n :: rest => (n, { s with headnf := rest })
  else (0, s)

/-- A guest-visible controller operation: an MMIO register write, an MMIO
register read, or the fault-path invocation of `rpfh_fetch_page`. -/
inductive Op where
  | write (addr value : Nat)
  | read (addr : Nat)
  | fetch (pte : Nat)

/-- One controller step; `none` models the fatal `assert` aborts of
`rpfh_fetch_page`. -/
def step (op : Op) (s : RState) : Option RState :=
  match op with
  | .write a v => some (rpfh_queues_write a v s)
  | .read a => some (rpfh_queues_read a s).2
  | .fetch p => (rpfh_fetch_page p s).map (fun r => r.2.2)

/-- Run a sequence of controller operations. -/
def run : List Op → RState → Option RState
  | [], s => some s
  | op :: ops, s => (step op s).bind (run ops)

/-- A state reachable from the empty initial state (empty queues, arbitrary
initial guest DRAM contents). -/
def Reachable (s : RState) : Prop :=
  ∃ ops m, run ops (initState m) = some s

/-- Change of the free-frame pool size caused by one operation: -1 for a
successful fetch, +1 for a `free_page` request (a nonzero write to offset 0),
0 for everything else. -/
def ffDelta : Op → Int
  | .fetch _ => -1
  | .write a v => if a = 0 ∧ v ≠ 0 then 1 else 0
  | .read _ => 0

/-- A frame address whose PPN recomposition carries no remote bit; every
frame that `rpfh_freepage` ever pushes (always a `pte_frame` value) has this
shape, because `pte_frame` masks the remote flag off. -/
def goodF (f : Nat) : Prop :=
  ((f >>> PGSHIFT) <<< PTE_PPN_SHIFT) % 2 ^ 64 &&& PTE_REMOTE = 0

/-- Concrete guest DRAM used by the evaluation scenarios: PTEs at 0x200
(frame 0x5000), 0x208 (frame 0x6000), 0x100 (frame 0x8000, permission bits
0x05), 0x108 (frame 0x9000, permission bits 0x07); frame 0x8000 filled with
byte 7, frame 0x9000 filled with byte 9, everything else 0. -/
def wMem : Nat → Nat := fun a =>
  if a = 0x200 then 0x01 else if a = 0x201 then 0x14
  else if a = 0x208 then 0x01 else if a = 0x209 then 0x18
  else if a = 0x100 then 0x05 else if a = 0x101 then 0x20
  else if a = 0x108 then 0x07 else if a = 0x109 then 0x24
  else if 0x8000 ≤ a ∧ a < 0x9000 then 7
  else if 0x9000 ≤ a ∧ a < 0xA000 then 9
  else 0

/-- Scenario state: one `free_page` (register write) performed. -/
def wS1 : RState := rpfh_queues_write 0 0x200 (initState wMem)

/-- Scenario state: `free_page` then `evict_page` of the PTE at 0x100. -/
def wS2 : RState := rpfh_queues_write 8 0x100 wS1

/-- The evicted-frame entry that a fetch with the post-evict key removes
from `wS2`. -/
def wEF2 : evictedframe :=
  match takeMatching (match_key 0x800000002005) wS2.headef with
  | some pr => pr.1
  | none => { data := fun _ => 0, pte := 0 }

/-- Result of the scenario fetch against `wS2`. -/
def wFR : Nat × Nat × RState :=
  match rpfh_fetch_page 0x800000002005 wS2 with
  | some r => r
  | none => (0, 0, wS2)

/-- An evicted-frame entry used by the fetch-success scenario. -/
def wEF4 : evictedframe := { data := fun _ => 0, pte := 0x800000002005 }

/-- A literal controller state with one pooled frame and one evicted entry. -/
def wS4 : RState :=
  { mem := fun _ => 0, headff := [0x5000], headef := [wEF4], headnf := [] }

/-- Scenario: two `free_page` requests then two `evict_page` requests. -/
def wT1 : RState := rpfh_queues_write 0 0x200 (initState wMem)

def wT2 : RState := rpfh_queues_write 0 0x208 wT1

def wT3 : RState := rpfh_queues_write 8 0x100 wT2

def wT4 : RState := rpfh_queues_write 8 0x108 wT3

/-- Result of the first scenario fetch against `wT4`. -/
def wRB1 : Nat × Nat × RState :=
  match rpfh_fetch_page 0x800000002005 wT4 with
  | some r => r
  | none => (0, 0, wT4)

/-- Result of the second scenario fetch. -/
def wRB2 : Nat × Nat × RState :=
  match rpfh_fetch_page 0x800000002407 wRB1.2.2 with
  | some r => r
  | none => (0, 0, wT4)

/-- Operation sequence: free a frame, evict the PTE at 0x100, then fetch it
back.  Used to exhibit a reachable state in which the guest-memory PTE still
carries the remote flag while the Evicted-Page Store is empty. -/
def c9ops : List Op :=
  [.write 0 0x200, .write 8 0x100, .fetch 0x800000002005]

theorem load64_lt (m : Nat → Nat) (a : Nat) : load64 m a < 2 ^ 64 := by
  unfold load64
  have b0 : m a % 256 < 256 := Nat.mod_lt _ (by norm_num)
  have b1 : m (a + 1) % 256 < 256 := Nat.mod_lt _ (by norm_num)
  have b2 : m (a + 2) % 256 < 256 := Nat.mod_lt _ (by norm_num)
  have b3 : m (a + 3) % 256 < 256 := Nat.mod_lt _ (by norm_num)
  have b4 : m (a + 4) % 256 < 256 := Nat.mod_lt _ (by norm_num)
  have b5 : m (a + 5) % 256 < 256 := Nat.mod_lt _ (by norm_num)
  have b6 : m (a + 6) % 256 < 256 := Nat.mod_lt _ (by norm_num)
  have b7 : m (a + 7) % 256 < 256 := Nat.mod_lt _ (by norm_num)
  have hp : (2 : Nat) ^ 64 = 18446744073709551616 := by norm_num
  omega

theorem load64_congr (m1 m2 : Nat → Nat) (a : Nat)
    (h : ∀ i, i < 8 → m1 (a + i) = m2 (a + i)) : load64 m1 a = load64 m2 a := by
  have h0 := h 0 (by omega)
  have h1 := h 1 (by omega)
  have h2 := h 2 (by omega)
  have h3 := h 3 (by omega)
  have h4 := h 4 (by omega)
  have h5 := h 5 (by omega)
  have h6 := h 6 (by omega)
  have h7 := h 7 (by omega)
  simp only [Nat.add_zero] at h0
  unfold load64
  rw [h0, h1, h2, h3, h4, h5, h6, h7]

theorem store64_at (m : Nat → Nat) (a v i : Nat) (h : i < 8) :
    store64 m a v (a + i) = v / 256 ^ i % 256 := by
  unfold store64
  rw [if_pos ⟨Nat.le_add_right a i, by omega⟩, Nat.add_sub_cancel_left]

theorem store64_outside (m : Nat → Nat) (a v x : Nat)
    (h : x < a ∨ a + 8 ≤ x) : store64 m a v x = m x := by
  unfold store64
  rw [if_neg (by omega)]

theorem load64_store64 (m : Nat → Nat) (a v : Nat) :
    load64 (store64 m a v) a = v % 2 ^ 64 := by
  have h0 := store64_at m a v 0 (by omega)
  have h1 := store64_at m a v 1 (by omega)
  have h2 := store64_at m a v 2 (by omega)
  have h3 := store64_at m a v 3 (by omega)
  have h4 := store64_at m a v 4 (by omega)
  have h5 := store64_at m a v 5 (by omega)
  have h6 := store64_at m a v 6 (by omega)
  have h7 := store64_at m a v 7 (by omega)
  simp only [Nat.add_zero] at h0
  norm_num at h0 h1 h2 h3 h4 h5 h6 h7
  unfold load64
  rw [h0, h1, h2, h3, h4, h5, h6, h7]
  have hp : (2 : Nat) ^ 64 = 18446744073709551616 := by norm_num
  rw [hp]
  omega

theorem memset0_outside (m : Nat → Nat) (a n x : Nat)
    (h : x < a ∨ a + n ≤ x) : memset0 m a n x = m x := by
  unfold memset0
  rw [if_neg (by omega)]

theorem memcpyData_outside (m : Nat → Nat) (d : Nat) (data : Nat → Nat)
    (n x : Nat) (h : x < d ∨ d + n ≤ x) : memcpyData m d data n x = m x := by
  unfold memcpyData
  rw [if_neg (by omega)]

theorem memcpyData_at (m : Nat → Nat) (d : Nat) (data : Nat → Nat)
    (n i : Nat) (h : i < n) : memcpyData m d data n (d + i) = data i := by
  unfold memcpyData
  rw [if_pos ⟨Nat.le_add_right d i, by omega⟩, Nat.add_sub_cancel_left]

theorem or_remote_and_remote (x : Nat) :
    (x ||| PTE_REMOTE) &&& PTE_REMOTE ≠ 0 := by
  intro h
  have hb := congrArg (fun n => n.testBit 47) h
  simp only [Nat.testBit_and, Nat.testBit_or, Nat.zero_testBit] at hb
  rw [show PTE_REMOTE.testBit 47 = true from by decide] at hb
  simp at hb

theorem and_notRemote_or_remote (x : Nat) :
    (x ||| PTE_REMOTE) &&& (2 ^ 64 - 1 - PTE_REMOTE) =
      x &&& (2 ^ 64 - 1 - PTE_REMOTE) := by
  apply Nat.eq_of_testBit_eq
  intro i
  simp only [Nat.testBit_and, Nat.testBit_or]
  rcases eq_or_ne i 47 with h | h
  · subst h
    have hm : ((2 : Nat) ^ 64 - 1 - PTE_REMOTE).testBit 47 = false := by decide
    rw [hm]
    simp
  · have hr : PTE_REMOTE.testBit i = false := by
      unfold PTE_REMOTE
      rw [Nat.testBit_two_pow]
      exact decide_eq_false (fun hc => h hc.symm)
    simp [hr]

theorem pte_frame_or_remote (x : Nat) :
    pte_frame (x ||| PTE_REMOTE) = pte_frame x := by
  unfold pte_frame
  rw [and_notRemote_or_remote]

theorem and_two_pow_eq_zero {x n : Nat} (h : x.testBit n = false) :
    x &&& 2 ^ n = 0 := by
  apply Nat.eq_of_testBit_eq
  intro i
  simp only [Nat.testBit_and, Nat.testBit_two_pow, Nat.zero_testBit]
  rcases eq_or_ne i n with hi | hi
  · subst hi; simp [h]
  · simp [Ne.symm hi]

theorem evict_headff (p : Nat) (s : RState) :
    (rpfh_evict_page p s).headff = s.headff := by
  simp only [rpfh_evict_page]
  split <;> rfl

theorem evict_headnf (p : Nat) (s : RState) :
    (rpfh_evict_page p s).headnf = s.headnf := by
  simp only [rpfh_evict_page]
  split <;> rfl

theorem evict_remote_noop (p : Nat) (s : RState)
    (h : load64 s.mem (gpaddr_to_hostaddr p) &&& PTE_REMOTE ≠ 0) :
    rpfh_evict_page p s = s := by
  unfold rpfh_evict_page
  rw [if_pos h]

theorem evict_mem (p : Nat) (s : RState)
    (hclear : load64 s.mem (gpaddr_to_hostaddr p) &&& PTE_REMOTE = 0) :
    (rpfh_evict_page p s).mem =
      memset0 (store64 s.mem (gpaddr_to_hostaddr p)
          (load64 s.mem (gpaddr_to_hostaddr p) ||| PTE_REMOTE))
        (gpaddr_to_hostaddr (pte_frame (load64 s.mem (gpaddr_to_hostaddr p))))
        4096 := by
  unfold rpfh_evict_page
  rw [if_neg (by simp [hclear])]

theorem evict_headef (p : Nat) (s : RState)
    (hclear : load64 s.mem (gpaddr_to_hostaddr p) &&& PTE_REMOTE = 0) :
    (rpfh_evict_page p s).headef = s.headef ++
      [{ data := fun i => store64 s.mem (gpaddr_to_hostaddr p)
            (load64 s.mem (gpaddr_to_hostaddr p) ||| PTE_REMOTE)
            (gpaddr_to_hostaddr (pte_frame (load64 s.mem (gpaddr_to_hostaddr p))) + i)
         pte := load64 (memset0 (store64 s.mem (gpaddr_to_hostaddr p)
              (load64 s.mem (gpaddr_to_hostaddr p) ||| PTE_REMOTE))
            (gpaddr_to_hostaddr (pte_frame (load64 s.mem (gpaddr_to_hostaddr p))))
            4096) (gpaddr_to_hostaddr p) }] := by
  unfold rpfh_evict_page
  rw [if_neg (by simp [hclear])]

theorem evict_post_pte (p : Nat) (s : RState)
    (hclear : load64 s.mem (gpaddr_to_hostaddr p) &&& PTE_REMOTE = 0)
    (hdisj : gpaddr_to_hostaddr p + 8 ≤
        gpaddr_to_hostaddr (pte_frame (load64 s.mem (gpaddr_to_hostaddr p))) ∨
      gpaddr_to_hostaddr (pte_frame (load64 s.mem (gpaddr_to_hostaddr p))) +
        4096 ≤ gpaddr_to_hostaddr p) :
    load64 (rpfh_evict_page p s).mem (gpaddr_to_hostaddr p) =
      load64 s.mem (gpaddr_to_hostaddr p) ||| PTE_REMOTE := by
  rw [evict_mem p s hclear]
  have h1 : load64 (memset0 (store64 s.mem (gpaddr_to_hostaddr p)
        (load64 s.mem (gpaddr_to_hostaddr p) ||| PTE_REMOTE))
      (gpaddr_to_hostaddr (pte_frame (load64 s.mem (gpaddr_to_hostaddr p))))
      4096) (gpaddr_to_hostaddr p) =
      load64 (store64 s.mem (gpaddr_to_hostaddr p)
        (load64 s.mem (gpaddr_to_hostaddr p) ||| PTE_REMOTE))
        (gpaddr_to_hostaddr p) :=
    load64_congr _ _ _ (fun i hi => memset0_outside _ _ _ _ (by omega))
  rw [h1, load64_store64]
  exact Nat.mod_eq_of_lt (Nat.or_lt_two_pow (load64_lt s.mem _)
    (by norm_num [PTE_REMOTE]))

theorem takeMatching_eq_none_iff (k : Nat) (l : List evictedframe) :
    takeMatching k l = none ↔ ∀ e ∈ l, k ≠ match_key e.pte := by
  induction l with
  | nil => simp [takeMatching]
  | cons e rest ih =>
    by_cases hk : k = match_key e.pte
    · simp only [takeMatching, if_pos hk]
      constructor
      · intro h; cases h
      · intro h; exact absurd hk (h e (by simp))
    · simp only [takeMatching, if_neg hk, Option.map_eq_none', ih]
      constructor
      · intro h e' he'
        rcases List.mem_cons.mp he' with rfl | hmem
        · exact hk
        · exact h e' hmem
      · intro h e' he'
        exact h e' (List.mem_cons_of_mem _ he')

theorem takeMatching_append_last (k : Nat) (l : List evictedframe)
    (e : evictedframe) (hnone : ∀ e' ∈ l, k ≠ match_key e'.pte)
    (hk : k = match_key e.pte) :
    takeMatching k (l ++ [e]) = some (e, l) := by
  induction l with
  | nil => simp [takeMatching, if_pos hk]
  | cons a rest ih =>
    have ha : k ≠ match_key a.pte := hnone a (by simp)
    simp only [List.cons_append, takeMatching, if_neg ha, List.append_eq]
    rw [ih (fun e' he' => hnone e' (by simp [he']))]
    rfl

theorem takeMatching_some_length (k : Nat) (l : List evictedframe)
    (e : evictedframe) (rest : List evictedframe)
    (h : takeMatching k l = some (e, rest)) : rest.length + 1 = l.length := by
  induction l generalizing e rest with
  | nil => simp [takeMatching] at h
  | cons a tl ih =>
    by_cases hk : k = match_key a.pte
    · rw [takeMatching, if_pos hk] at h
      cases h
      simp
    · rw [takeMatching, if_neg hk] at h
      rcases ht : takeMatching k tl with _ | p
      · rw [ht] at h; cases h
      · rw [ht] at h
        simp only [Option.map_some'] at h
        cases h
        have := ih p.1 p.2 (by rw [ht])
        simp
        omega

theorem fetch_eq (q : Nat) (s : RState) (f : Nat) (ffrest : List Nat)
    (ef : evictedframe) (efrest : List evictedframe)
    (hff : s.headff = f :: ffrest)
    (htake : takeMatching (match_key q) s.headef = some (ef, efrest)) :
    rpfh_fetch_page q s = some (f,
      ((f >>> PGSHIFT) <<< PTE_PPN_SHIFT) % 2 ^ 64 ||| (ef.pte &&& 0xFF),
      { s with
        mem := memcpyData s.mem (gpaddr_to_hostaddr f) ef.data 4096
        headff := ffrest
        headef := efrest
        headnf := s.headnf ++
          [((f >>> PGSHIFT) <<< PTE_PPN_SHIFT) % 2 ^ 64 ||| (ef.pte &&& 0xFF)] }) := by
  unfold rpfh_fetch_page
  rw [hff, htake]

theorem fetch_some_inv (q : Nat) (s : RState) (r : Nat × Nat × RState)
    (h : rpfh_fetch_page q s = some r) :
    ∃ f ffrest ef efrest, s.headff = f :: ffrest ∧
      takeMatching (match_key q) s.headef = some (ef, efrest) ∧
      r = (f, ((f >>> PGSHIFT) <<< PTE_PPN_SHIFT) % 2 ^ 64 ||| (ef.pte &&& 0xFF),
        { s with
          mem := memcpyData s.mem (gpaddr_to_hostaddr f) ef.data 4096
          headff := ffrest
          headef := efrest
          headnf := s.headnf ++
            [((f >>> PGSHIFT) <<< PTE_PPN_SHIFT) % 2 ^ 64 |||
              (ef.pte &&& 0xFF)] }) := by
  unfold rpfh_fetch_page at h
  rcases hff : s.headff with _ | ⟨f, ffrest⟩
  · rw [hff] at h; cases h
  · rw [hff] at h
    rcases ht : takeMatching (match_key q) s.headef with _ | ⟨ef, efrest⟩
    · rw [ht] at h; cases h
    · rw [ht] at h
      exact ⟨f, ffrest, ef, efrest, rfl, rfl, (Option.some.inj h).symm⟩

theorem remote_testBit (i : Nat) : PTE_REMOTE.testBit i = decide (47 = i) := by
  unfold PTE_REMOTE
  exact Nat.testBit_two_pow

theorem match_key_testBit (p i : Nat) :
    (match_key p).testBit i =
      (p.testBit i && (decide (10 ≤ i) && decide (i < 48))) := by
  unfold match_key
  have hmask : (0xFFFFFFFFFC00 : Nat) = (2 ^ 38 - 1) <<< 10 := by decide
  rw [hmask]
  simp only [Nat.testBit_and, Nat.testBit_shiftLeft, Nat.testBit_two_pow_sub_one]
  by_cases h1 : 10 ≤ i
  · by_cases h2 : i < 48
    · simp [h1, h2, show i - 10 < 38 by omega]
    · simp [h1, h2, show ¬i - 10 < 38 by omega]
  · simp [h1]

theorem new_pte_and_ff (f e : Nat) :
    (((f >>> PGSHIFT) <<< PTE_PPN_SHIFT) % 2 ^ 64 ||| (e &&& 0xFF)) &&& 0xFF =
      e &&& 0xFF := by
  apply Nat.eq_of_testBit_eq
  intro i
  by_cases hi : i < 8
  · have hsh : Nat.testBit (((f >>> PGSHIFT) <<< PTE_PPN_SHIFT) % 2 ^ 64) i =
        false := by
      simp only [Nat.testBit_mod_two_pow, Nat.testBit_shiftLeft]
      unfold PTE_PPN_SHIFT
      have hd : decide (10 ≤ i) = false := decide_eq_false (by omega)
      simp [hd]
    simp only [Nat.testBit_and, Nat.testBit_or, hsh, Bool.false_or]
    rw [Bool.and_assoc, Bool.and_self]
  · have h255 : (0xFF : Nat).testBit i = false := by
      rw [show (0xFF : Nat) = 2 ^ 8 - 1 by norm_num, Nat.testBit_two_pow_sub_one]
      exact decide_eq_false (by omega)
    simp [Nat.testBit_and, Nat.testBit_or, h255]

theorem new_pte_and_remote (f e : Nat) (h : goodF f) :
    (((f >>> PGSHIFT) <<< PTE_PPN_SHIFT) % 2 ^ 64 ||| (e &&& 0xFF)) &&&
      PTE_REMOTE = 0 := by
  rw [Nat.and_comm _ PTE_REMOTE, Nat.and_or_distrib_left]
  have h1 : PTE_REMOTE &&& ((f >>> PGSHIFT) <<< PTE_PPN_SHIFT) % 2 ^ 64 = 0 := by
    rw [Nat.and_comm]
    exact h
  have h2 : PTE_REMOTE &&& (e &&& 0xFF) = 0 := by
    rw [Nat.and_comm, Nat.and_assoc]
    rw [show (0xFF : Nat) &&& PTE_REMOTE = 0 by decide]
    exact Nat.and_zero e
  rw [h1, h2]
  exact Nat.zero_or 0

theorem goodF_pte_frame (x : Nat) : goodF (pte_frame x) := by
  unfold goodF
  rw [show PTE_REMOTE = 2 ^ 47 from rfl]
  apply and_two_pow_eq_zero
  unfold pte_frame PGSHIFT PTE_PPN_SHIFT
  simp only [Nat.testBit_mod_two_pow, Nat.testBit_shiftLeft,
    Nat.testBit_shiftRight, Nat.testBit_and]
  norm_num
  intro _
  decide

theorem read_headff (a : Nat) (s : RState) :
    (rpfh_queues_read a s).2.headff = s.headff := by
  unfold rpfh_queues_read
  by_cases h0 : a = 0
  · rw [if_pos h0]
  · rw [if_neg h0]
    by_cases h8 : a = 8
    · rw [if_pos h8]
    · rw [if_neg h8]
      by_cases h16 : a = 16
      · rw [if_pos h16]
        rcases s.headnf with _ | ⟨n, rest⟩ <;> rfl
      · rw [if_neg h16]

theorem read16_cons (t : RState) (a : Nat) (rest : List Nat)
    (h : t.headnf = a :: rest) :
    rpfh_queues_read 16 t = (a, { t with headnf := rest }) := by
  unfold rpfh_queues_read
  rw [if_neg (by decide), if_neg (by decide), if_pos rfl]
  simp only [h]

theorem read16_empty (t : RState) (h : t.headnf = []) :
    rpfh_queues_read 16 t = (0, t) := by
  unfold rpfh_queues_read
  rw [if_neg (by decide), if_neg (by decide), if_pos rfl]
  simp only [h]

theorem fetch_headnf (q : Nat) (s : RState) (r : Nat × Nat × RState)
    (h : rpfh_fetch_page q s = some r) :
    r.2.2.headnf = s.headnf ++ [r.2.1] := by
  obtain ⟨f, ffrest, ef, efrest, hff, ht, hreq⟩ := fetch_some_inv q s r h
  subst hreq
  rfl

theorem step_preserves_goodF (op : Op) (s s' : RState)
    (h : step op s = some s') (hs : ∀ f ∈ s.headff, goodF f) :
    ∀ f ∈ s'.headff, goodF f := by
  cases op with
  | write a v =>
    simp only [step, Option.some.injEq] at h
    subst h
    unfold rpfh_queues_write
    by_cases hv : v = 0
    · rw [if_pos hv]; exact hs
    · rw [if_neg hv]
      by_cases ha : a = 0
      · rw [if_pos ha]
        intro f hf
        unfold rpfh_freepage at hf
        simp only [List.mem_append, List.mem_singleton] at hf
        rcases hf with hf | hf
        · exact hs f hf
        · subst hf; exact goodF_pte_frame _
      · rw [if_neg ha]
        by_cases h8 : a = 8
        · rw [if_pos h8]
          intro f hf
          rw [evict_headff] at hf
          exact hs f hf
        · rw [if_neg h8]; exact hs
  | read a =>
    simp only [step, Option.some.injEq] at h
    subst h
    intro f hf
    rw [read_headff] at hf
    exact hs f hf
  | fetch p =>
    simp only [step, Option.map_eq_some'] at h
    obtain ⟨r, hr, hs'⟩ := h
    obtain ⟨f, ffrest, ef, efrest, hff, ht, hreq⟩ := fetch_some_inv p s r hr
    subst hreq
    subst hs'
    intro g hg
    exact hs g (by rw [hff]; exact List.mem_cons_of_mem _ hg)

theorem run_preserves_goodF (ops : List Op) (s s' : RState)
    (h : run ops s = some s') (hs : ∀ f ∈ s.headff, goodF f) :
    ∀ f ∈ s'.headff, goodF f := by
  induction ops generalizing s with
  | nil =>
    simp only [run, Option.some.injEq] at h
    subst h
    exact hs
  | cons op rest ih =>
    simp only [run, Option.bind_eq_some] at h
    obtain ⟨s1, h1, h2⟩ := h
    exact ih s1 h2 (step_preserves_goodF op s s1 h1 hs)

theorem reachable_goodF (s : RState) (h : Reachable s) :
    ∀ f ∈ s.headff, goodF f := by
  obtain ⟨ops, m, hrun⟩ := h
  exact run_preserves_goodF ops (initState m) s hrun (by simp [initState])

/-- C3: the comparison key (the PTE value with the low-order
status/permission bits masked off) is equal for two PTEs that differ only in
the low 10 status/permission bits, and differs whenever the two PTEs differ
in a PPN-field bit (bits 10..47) or in the remote flag bit: matching is
insensitive to permission-bit churn but sensitive to frame identity and the
remote marker. -/
theorem c3_match_key_sensitivity (p q : Nat) :
    (p >>> 10 = q >>> 10 → match_key p = match_key q) ∧
    (∀ i, 10 ≤ i → i < 48 → p.testBit i ≠ q.testBit i →
      match_key p ≠ match_key q) ∧
    (p &&& PTE_REMOTE ≠ q &&& PTE_REMOTE → match_key p ≠ match_key q) := by
  refine ⟨?_, ?_, ?_⟩
  · intro h
    apply Nat.eq_of_testBit_eq
    intro i
    rw [match_key_testBit, match_key_testBit]
    by_cases h1 : 10 ≤ i
    · have hbit : p.testBit i = q.testBit i := by
        have hc := congrArg (fun x => x.testBit (i - 10)) h
        simp only [Nat.testBit_shiftRight] at hc
        rw [show 10 + (i - 10) = i by omega] at hc
        exact hc
      rw [hbit]
    · have hd : decide (10 ≤ i) = false := decide_eq_false h1
      rw [hd]
      simp
  · intro i h10 h48 hne hk
    apply hne
    have hc : (match_key p).testBit i = (match_key q).testBit i := by rw [hk]
    rw [match_key_testBit, match_key_testBit] at hc
    have d1 : decide (10 ≤ i) = true := decide_eq_true h10
    have d2 : decide (i < 48) = true := decide_eq_true h48
    rw [d1, d2] at hc
    simpa using hc
  · intro hne hk
    apply hne
    have h47 : p.testBit 47 = q.testBit 47 := by
      have hc : (match_key p).testBit 47 = (match_key q).testBit 47 := by
        rw [hk]
      rw [match_key_testBit, match_key_testBit] at hc
      simpa using hc
    apply Nat.eq_of_testBit_eq
    intro i
    simp only [Nat.testBit_and, remote_testBit]
    rcases eq_or_ne i 47 with rfl | hi
    · rw [h47]
    · have hd : decide (47 = i) = false :=
        decide_eq_false (fun hc => hi hc.symm)
      rw [hd]
      simp

theorem c3_witness :
    match_key 0x2005 = match_key 0x20FF ∧
    match_key 0x2005 ≠ match_key 0x3005 ∧
    match_key 0x2005 ≠ match_key (0x2005 ||| PTE_REMOTE) :=
  ⟨(c3_match_key_sensitivity 0x2005 0x20FF).1 (by decide),
   (c3_match_key_sensitivity 0x2005 0x3005).2.1 12 (by decide) (by decide)
     (by decide),
   (c3_match_key_sensitivity 0x2005 (0x2005 ||| PTE_REMOTE)).2.2 (by decide)⟩

/-- C4: `rpfh_fetch_page` aborts fatally exactly when the free-frame pool is
empty or no evicted entry's key matches the faulting PTE's key; when the pool
is non-empty and a matching entry exists, it runs to completion. -/
theorem c4_fetch_fatal_cases (q : Nat) (s : RState) :
    (rpfh_fetch_page q s = none ↔
      s.headff = [] ∨ ∀ e ∈ s.headef, match_key q ≠ match_key e.pte) ∧
    (s.headff ≠ [] → (∃ e ∈ s.headef, match_key q = match_key e.pte) →
      (rpfh_fetch_page q s).isSome = true) := by
  constructor
  · constructor
    · intro h
      rcases hff : s.headff with _ | ⟨f, rest⟩
      · exact Or.inl rfl
      · right
        rw [← takeMatching_eq_none_iff]
        rcases ht : takeMatching (match_key q) s.headef with _ | ⟨ef, efrest⟩
        · rfl
        · rw [fetch_eq q s f rest ef efrest hff ht] at h
          cases h
    · intro h
      rcases h with hff | hmatch
      · unfold rpfh_fetch_page
        rw [hff]
      · rcases hff : s.headff with _ | ⟨f, rest⟩
        · unfold rpfh_fetch_page
          rw [hff]
        · unfold rpfh_fetch_page
          rw [hff, (takeMatching_eq_none_iff _ _).mpr hmatch]
  · rintro hff ⟨e, he, hk⟩
    rcases hff2 : s.headff with _ | ⟨f, rest⟩
    · exact absurd hff2 hff
    · rcases ht : takeMatching (match_key q) s.headef with _ | ⟨ef, efrest⟩
      · exact absurd hk ((takeMatching_eq_none_iff _ _).mp ht e he)
      · rw [fetch_eq q s f rest ef efrest hff2 ht]
        rfl

theorem c4_witness : (rpfh_fetch_page 0x800000002005 wS4).isSome = true :=
  (c4_fetch_fatal_cases 0x800000002005 wS4).2 (by decide)
    ⟨wEF4, by rw [show wS4.headef = [wEF4] from rfl]; exact List.mem_singleton_self _, by decide⟩

/-- C7: across any successful controller step, the free-frame pool size
changes by the delta of the operation (-1 for a successful fetch, +1 for a
`free_page` register write, 0 otherwise) and is never negative. -/
theorem c7_frame_conservation (op : Op) (s s' : RState)
    (h : step op s = some s') :
    (s'.headff.length : Int) = s.headff.length + ffDelta op ∧
    0 ≤ (s'.headff.length : Int) := by
  refine ⟨?_, Int.natCast_nonneg _⟩
  cases op with
  | write a v =>
    simp only [step, Option.some.injEq] at h
    subst h
    unfold rpfh_queues_write ffDelta
    by_cases hv : v = 0
    · rw [if_pos hv]
      simp [hv]
    · rw [if_neg hv]
      by_cases ha : a = 0
      · rw [if_pos ha]
        unfold rpfh_freepage
        simp only [List.length_append, List.length_singleton, ha, hv]
        simp [hv]
      · rw [if_neg ha]
        by_cases h8 : a = 8
        · rw [if_pos h8]
          rw [evict_headff]
          simp [ha]
        · rw [if_neg h8]
          simp [ha]
  | read a =>
    simp only [step, Option.some.injEq] at h
    subst h
    rw [read_headff]
    simp [ffDelta]
  | fetch p =>
    simp only [step, Option.map_eq_some'] at h
    obtain ⟨r, hr, hs'⟩ := h
    obtain ⟨f, ffrest, ef, efrest, hff, ht, hreq⟩ := fetch_some_inv p s r hr
    subst hreq
    subst hs'
    rw [hff]
    unfold ffDelta
    simp only [List.length_cons]
    push_cast
    omega

theorem c7_witness :
    ((wS1.headff.length : Int) =
      (initState wMem).headff.length + ffDelta (.write 0 0x200)) ∧
    0 ≤ (wS1.headff.length : Int) :=
  c7_frame_conservation (.write 0 0x200) (initState wMem) wS1 rfl

/-- C8: a write to a register offset other than 0, 8 and 16 is ignored (no
state change), a read from such an offset returns 0 and changes nothing, a
write of value 0 to any offset is a no-op, and a read of the EVICTPAGE
offset (8) always returns 0. -/
theorem c8_register_tolerance (a v : Nat) (s : RState) :
    (a ≠ 0 → a ≠ 8 → a ≠ 16 →
      rpfh_queues_write a v s = s ∧ rpfh_queues_read a s = (0, s)) ∧
    rpfh_queues_write a 0 s = s ∧
    rpfh_queues_read 8 s = (0, s) := by
  refine ⟨fun h0 h8 h16 => ⟨?_, ?_⟩, ?_, ?_⟩
  · unfold rpfh_queues_write
    by_cases hv : v = 0
    · rw [if_pos hv]
    · rw [if_neg hv, if_neg h0, if_neg h8]
  · unfold rpfh_queues_read
    rw [if_neg h0, if_neg h8, if_neg h16]
  · unfold rpfh_queues_write
    rw [if_pos rfl]
  · unfold rpfh_queues_read
    rw [if_neg (by decide), if_pos rfl]

theorem c8_witness :
    rpfh_queues_write 24 5 (initState wMem) = initState wMem ∧
    rpfh_queues_read 24 (initState wMem) = (0, initState wMem) :=
  (c8_register_tolerance 24 5 (initState wMem)).1 (by decide) (by decide)
    (by decide)

/-- C10: every controller access to guest physical memory resolves a guest
physical address `g` to the host offset `g mod 2^31` (the code masks with
0x7FFFFFFF), so any two guest physical addresses congruent modulo 2 GiB
alias to the same guest memory location. -/
theorem c10_gpaddr_wraparound (g g' : Nat) :
    gpaddr_to_hostaddr g = g % 2 ^ 31 ∧
    (g % 2 ^ 31 = g' % 2 ^ 31 →
      gpaddr_to_hostaddr g = gpaddr_to_hostaddr g') := by
  have h : ∀ x : Nat, gpaddr_to_hostaddr x = x % 2 ^ 31 := by
    intro x
    unfold gpaddr_to_hostaddr
    rw [show (0x7FFFFFFF : Nat) = 2 ^ 31 - 1 by norm_num]
    exact Nat.and_pow_two_sub_one_eq_mod x 31
  exact ⟨h g, fun hm => by rw [h g, h g', hm]⟩

theorem c10_witness :
    gpaddr_to_hostaddr (2 ^ 31 + 5) = gpaddr_to_hostaddr 5 :=
  (c10_gpaddr_wraparound (2 ^ 31 + 5) 5).2 (by norm_num)

/-- C1: round trip.  For a PTE with the remote flag clear (whose PTE word
does not overlap the 4096-byte frame it names), evicting it and then fetching
with a faulting PTE whose `match_key` equals the `match_key` of the
post-evict PTE copies, byte for byte, the frame's pre-evict image into the
frame popped from the free-frame pool, and returns that frame's guest
physical address as the resolved physical address. -/
theorem c1_round_trip (s : RState) (p g q : Nat) (ffrest : List Nat)
    (hff : s.headff = g :: ffrest)
    (hclear : load64 s.mem (gpaddr_to_hostaddr p) &&& PTE_REMOTE = 0)
    (hdisj : gpaddr_to_hostaddr p + 8 ≤
        gpaddr_to_hostaddr (pte_frame (load64 s.mem (gpaddr_to_hostaddr p))) ∨
      gpaddr_to_hostaddr (pte_frame (load64 s.mem (gpaddr_to_hostaddr p))) +
        4096 ≤ gpaddr_to_hostaddr p)
    (hnomatch : ∀ e ∈ s.headef, match_key q ≠ match_key e.pte)
    (hq : match_key q =
      match_key (load64 (rpfh_evict_page p s).mem (gpaddr_to_hostaddr p))) :
    ∃ np s2, rpfh_fetch_page q (rpfh_evict_page p s) = some (g, np, s2) ∧
      ∀ i, i < 4096 → s2.mem (gpaddr_to_hostaddr g + i) =
        s.mem (gpaddr_to_hostaddr (pte_frame (load64 s.mem
          (gpaddr_to_hostaddr p))) + i) := by
  have hffE : (rpfh_evict_page p s).headff = g :: ffrest := by
    rw [evict_headff, hff]
  have hq2 : match_key q = match_key (load64 (memset0 (store64 s.mem
      (gpaddr_to_hostaddr p)
      (load64 s.mem (gpaddr_to_hostaddr p) ||| PTE_REMOTE))
      (gpaddr_to_hostaddr (pte_frame (load64 s.mem (gpaddr_to_hostaddr p))))
      4096) (gpaddr_to_hostaddr p)) := by
    rw [hq, evict_mem p s hclear]
  have htake : takeMatching (match_key q) (rpfh_evict_page p s).headef =
      some ({ data := fun i => store64 s.mem (gpaddr_to_hostaddr p)
                (load64 s.mem (gpaddr_to_hostaddr p) ||| PTE_REMOTE)
                (gpaddr_to_hostaddr (pte_frame (load64 s.mem
                  (gpaddr_to_hostaddr p))) + i)
              pte := load64 (memset0 (store64 s.mem (gpaddr_to_hostaddr p)
                  (load64 s.mem (gpaddr_to_hostaddr p) ||| PTE_REMOTE))
                (gpaddr_to_hostaddr (pte_frame (load64 s.mem
                  (gpaddr_to_hostaddr p))))
                4096) (gpaddr_to_hostaddr p) }, s.headef) := by
    rw [evict_headef p s hclear]
    exact takeMatching_append_last _ _ _ hnomatch hq2
  refine ⟨_, _,
    fetch_eq q (rpfh_evict_page p s) g ffrest _ s.headef hffE htake, ?_⟩
  intro i hi
  dsimp only
  rw [memcpyData_at _ _ _ _ _ hi]
  exact store64_outside _ _ _ _ (by omega)

theorem c1_witness :
    ∃ np s2, rpfh_fetch_page 0x800000002005 (rpfh_evict_page 0x100 wS1) =
        some (0x5000, np, s2) ∧
      ∀ i, i < 4096 → s2.mem (gpaddr_to_hostaddr 0x5000 + i) =
        wS1.mem (gpaddr_to_hostaddr (pte_frame (load64 wS1.mem
          (gpaddr_to_hostaddr 0x100))) + i) :=
  c1_round_trip wS1 0x100 0x5000 0x800000002005 [] (by decide) (by decide)
    (by decide)
    (by intro e he
        rw [show wS1.headef = ([] : List evictedframe) from rfl] at he
        cases he)
    (by decide)

/-- C2: for every successful fetch in a reachable state, the low-order
status/permission bits of the produced PTE equal those captured in the
matched evicted entry, the remote flag of the produced PTE is clear, and the
produced PTE is the PPN field derived from the popped frame combined with
those low-order bits. -/
theorem c2_permission_preservation (s : RState) (q : Nat)
    (r : Nat × Nat × RState) (ef : evictedframe) (efrest : List evictedframe)
    (hreach : Reachable s)
    (hfetch : rpfh_fetch_page q s = some r)
    (htake : takeMatching (match_key q) s.headef = some (ef, efrest)) :
    r.2.1 &&& 0xFF = ef.pte &&& 0xFF ∧
    r.2.1 &&& PTE_REMOTE = 0 ∧
    r.2.1 = ((r.1 >>> PGSHIFT) <<< PTE_PPN_SHIFT) % 2 ^ 64 |||
      (ef.pte &&& 0xFF) := by
  obtain ⟨f, ffrest, ef', efrest', hff, ht, hreq⟩ := fetch_some_inv q s r hfetch
  rw [ht] at htake
  have h2 := Option.some.inj htake
  rw [Prod.mk.injEq] at h2
  obtain ⟨rfl, rfl⟩ := h2
  subst hreq
  refine ⟨new_pte_and_ff f ef'.pte, ?_, rfl⟩
  exact new_pte_and_remote f ef'.pte
    (reachable_goodF s hreach f (by rw [hff]; exact List.mem_cons_self f ffrest))

theorem c2_witness :
    wFR.2.1 &&& 0xFF = wEF2.pte &&& 0xFF ∧
    wFR.2.1 &&& PTE_REMOTE = 0 ∧
    wFR.2.1 = ((wFR.1 >>> PGSHIFT) <<< PTE_PPN_SHIFT) % 2 ^ 64 |||
      (wEF2.pte &&& 0xFF) :=
  c2_permission_preservation wS2 0x800000002005 wFR wEF2 []
    ⟨[.write 0 0x200, .write 8 0x100], wMem, rfl⟩ rfl rfl

/-- C5: evicting the same guest PTE address twice (starting from a PTE with
the remote flag clear, whose word does not overlap the frame it names)
produces exactly one new entry in the evicted-page store, leaves the remote
flag set after either call, and the second call changes no controller state. -/
theorem c5_evict_idempotent (s : RState) (p : Nat)
    (hclear : load64 s.mem (gpaddr_to_hostaddr p) &&& PTE_REMOTE = 0)
    (hdisj : gpaddr_to_hostaddr p + 8 ≤
        gpaddr_to_hostaddr (pte_frame (load64 s.mem (gpaddr_to_hostaddr p))) ∨
      gpaddr_to_hostaddr (pte_frame (load64 s.mem (gpaddr_to_hostaddr p))) +
        4096 ≤ gpaddr_to_hostaddr p) :
    rpfh_evict_page p (rpfh_evict_page p s) = rpfh_evict_page p s ∧
    (rpfh_evict_page p s).headef.length = s.headef.length + 1 ∧
    load64 (rpfh_evict_page p s).mem (gpaddr_to_hostaddr p) &&&
      PTE_REMOTE ≠ 0 := by
  have hpost := evict_post_pte p s hclear hdisj
  refine ⟨?_, ?_, ?_⟩
  · apply evict_remote_noop
    rw [hpost]
    exact or_remote_and_remote _
  · rw [evict_headef p s hclear]
    simp
  · rw [hpost]
    exact or_remote_and_remote _

theorem c5_witness :
    rpfh_evict_page 0x100 (rpfh_evict_page 0x100 (initState wMem)) =
      rpfh_evict_page 0x100 (initState wMem) ∧
    (rpfh_evict_page 0x100 (initState wMem)).headef.length =
      (initState wMem).headef.length + 1 ∧
    load64 (rpfh_evict_page 0x100 (initState wMem)).mem
      (gpaddr_to_hostaddr 0x100) &&& PTE_REMOTE ≠ 0 :=
  c5_evict_idempotent (initState wMem) 0x100 (by decide) (by decide)

/-- C6: the new-frame notification queue is FIFO.  After two successful
fetches A then B starting from an empty notification queue, successive reads
of the NEWFRAME register (offset 16) return A's resulting PTE, then B's,
then 0; and a read of offset 16 returns 0 in any state whose notification
queue is empty. -/
theorem c6_notification_fifo (s : RState) (qA qB : Nat)
    (rA rB : Nat × Nat × RState)
    (hnf : s.headnf = [])
    (hA : rpfh_fetch_page qA s = some rA)
    (hB : rpfh_fetch_page qB rA.2.2 = some rB) :
    (rpfh_queues_read 16 rB.2.2).1 = rA.2.1 ∧
    (rpfh_queues_read 16 (rpfh_queues_read 16 rB.2.2).2).1 = rB.2.1 ∧
    (rpfh_queues_read 16 (rpfh_queues_read 16
      (rpfh_queues_read 16 rB.2.2).2).2).1 = 0 ∧
    ∀ t : RState, t.headnf = [] → (rpfh_queues_read 16 t).1 = 0 := by
  have hnfA : rA.2.2.headnf = [rA.2.1] := by
    rw [fetch_headnf qA s rA hA, hnf]
    rfl
  have hnfB : rB.2.2.headnf = [rA.2.1, rB.2.1] := by
    rw [fetch_headnf qB rA.2.2 rB hB, hnfA]
    rfl
  have h1 := read16_cons rB.2.2 rA.2.1 [rB.2.1] hnfB
  have h2 := read16_cons { rB.2.2 with headnf := [rB.2.1] } rB.2.1 [] rfl
  have h3 := read16_empty
    { rB.2.2 with headnf := ([] : List Nat) } rfl
  refine ⟨by rw [h1], ?_, ?_, fun t ht => by rw [read16_empty t ht]⟩
  · rw [h1]
    dsimp only
    rw [h2]
  · rw [h1]
    dsimp only
    rw [h2]
    dsimp only
    rw [h3]

theorem c6_witness :
    (rpfh_queues_read 16 wRB2.2.2).1 = wRB1.2.1 ∧
    (rpfh_queues_read 16 (rpfh_queues_read 16 wRB2.2.2).2).1 = wRB2.2.1 ∧
    (rpfh_queues_read 16 (rpfh_queues_read 16
      (rpfh_queues_read 16 wRB2.2.2).2).2).1 = 0 ∧
    ∀ t : RState, t.headnf = [] → (rpfh_queues_read 16 t).1 = 0 :=
  c6_notification_fifo wT4 0x800000002005 0x800000002407 wRB1 wRB2
    rfl rfl rfl

/-- C9 refutation: in the state reached by `free_page`, `evict_page`,
`fetch_page` (sequence `c9ops` from the empty initial state), the guest PTE
word at 0x100 — touched by the controller's evict — still has its remote bit
set, while the evicted-page store is empty: `rpfh_fetch_page` removes the
matched entry but never rewrites the guest-memory PTE (the rewritten PTE is
only passed back through the in/out parameter), so the claimed
remote-bit-iff-store-entry invariant fails in a reachable state. -/
theorem c9_counterexample :
    (run c9ops (initState wMem)).map
      (fun s => (load64 s.mem (gpaddr_to_hostaddr 0x100) &&&
          PTE_REMOTE != 0) &&
        (s.headef.length == 0)) = some true := by
  rfl

/-- C9 (amended): immediately after `evict_page` of a PTE with the remote
flag clear (whose word does not overlap the frame it names), the PTE's
remote bit is set and the evicted-page store contains an entry whose stored
PTE has the same match key, and the PTE still names its pre-eviction frame
(`pte_frame` unchanged); a subsequent `fetch_page` (whose destination frame
does not overlap the PTE word) removes the matching entry but leaves the
guest-memory PTE word unchanged — the rewritten PTE is only returned to the
caller, so the remote bit remains set there until the guest installs the
returned PTE. -/
theorem c9_remote_invariant_amended (s : RState) (p : Nat)
    (hclear : load64 s.mem (gpaddr_to_hostaddr p) &&& PTE_REMOTE = 0)
    (hdisj : gpaddr_to_hostaddr p + 8 ≤
        gpaddr_to_hostaddr (pte_frame (load64 s.mem (gpaddr_to_hostaddr p))) ∨
      gpaddr_to_hostaddr (pte_frame (load64 s.mem (gpaddr_to_hostaddr p))) +
        4096 ≤ gpaddr_to_hostaddr p) :
    (load64 (rpfh_evict_page p s).mem (gpaddr_to_hostaddr p) &&&
      PTE_REMOTE ≠ 0) ∧
    (∃ e ∈ (rpfh_evict_page p s).headef,
      match_key e.pte =
        match_key (load64 (rpfh_evict_page p s).mem (gpaddr_to_hostaddr p))) ∧
    pte_frame (load64 (rpfh_evict_page p s).mem (gpaddr_to_hostaddr p)) =
      pte_frame (load64 s.mem (gpaddr_to_hostaddr p)) ∧
    ∀ q r, rpfh_fetch_page q (rpfh_evict_page p s) = some r →
      (gpaddr_to_hostaddr p + 8 ≤ gpaddr_to_hostaddr r.1 ∨
        gpaddr_to_hostaddr r.1 + 4096 ≤ gpaddr_to_hostaddr p) →
      load64 r.2.2.mem (gpaddr_to_hostaddr p) =
        load64 (rpfh_evict_page p s).mem (gpaddr_to_hostaddr p) := by
  have hpost := evict_post_pte p s hclear hdisj
  refine ⟨?_, ?_, ?_, ?_⟩
  · rw [hpost]
    exact or_remote_and_remote _
  · rw [evict_headef p s hclear, evict_mem p s hclear]
    exact ⟨_, List.mem_append_right _ (List.mem_singleton_self _), rfl⟩
  · rw [hpost]
    exact pte_frame_or_remote _
  · intro q r hr hd2
    obtain ⟨f, ffrest, ef, efrest, hff, ht, hreq⟩ := fetch_some_inv q _ r hr
    subst hreq
    dsimp only at hd2 ⊢
    exact load64_congr _ _ _
      (fun i hi => memcpyData_outside _ _ _ _ _ (by omega))

theorem c9_witness :
    (load64 (rpfh_evict_page 0x100 wS1).mem (gpaddr_to_hostaddr 0x100) &&&
      PTE_REMOTE ≠ 0) ∧
    (∃ e ∈ (rpfh_evict_page 0x100 wS1).headef,
      match_key e.pte =
        match_key (load64 (rpfh_evict_page 0x100 wS1).mem
          (gpaddr_to_hostaddr 0x100))) ∧
    pte_frame (load64 (rpfh_evict_page 0x100 wS1).mem
        (gpaddr_to_hostaddr 0x100)) =
      pte_frame (load64 wS1.mem (gpaddr_to_hostaddr 0x100)) ∧
    ∀ q r, rpfh_fetch_page q (rpfh_evict_page 0x100 wS1) = some r →
      (gpaddr_to_hostaddr 0x100 + 8 ≤ gpaddr_to_hostaddr r.1 ∨
        gpaddr_to_hostaddr r.1 + 4096 ≤ gpaddr_to_hostaddr 0x100) →
      load64 r.2.2.mem (gpaddr_to_hostaddr 0x100) =
        load64 (rpfh_evict_page 0x100 wS1).mem (gpaddr_to_hostaddr 0x100) :=
  c9_remote_invariant_amended wS1 0x100 (by decide) (by decide)

end RPFH
